import Mathlib

/-!
Shallow embedding of the duplicate-detection / album-relation engine of the
`muman` music-library manager (Rust), together with proofs of the spec's
claims about it.  The embedded functions mirror `src/dedup.rs`,
`src/metadata.rs` and `src/library.rs`; external collaborators (the
filesystem, the tag reader, stdin) are modelled as explicit oracles.
-/

namespace Muman

/-- Record of one scanned audio file, mirroring `SongMetadata`
(src/metadata.rs): all tag fields are optional strings, plus the optional
file path (a path is modelled as its `String` form). -/
structure SongMetadata where
  title : Option String
  artist : Option String
  album : Option String
  isrc : Option String
  file_path : Option String
deriving DecidableEq, Repr

/-- Character filter used by `normalize_str`: model of Rust
`c.is_alphanumeric() || c.is_whitespace()` (Lean's ASCII classifiers stand
in for Rust's Unicode ones). -/
def keepChar (c : Char) : Bool := c.isAlphanum || c.isWhitespace

/-- Drop trailing whitespace, as the right half of Rust `str::trim`. -/
def trimRight (l : List Char) : List Char :=
  ((l.reverse).dropWhile Char.isWhitespace).reverse

/-- Model of Rust `str::trim`: drop leading then trailing whitespace. -/
def trimChars (l : List Char) : List Char :=
  trimRight (l.dropWhile Char.isWhitespace)

/-- Core of `normalize_str` on a character list: lowercase every character,
keep only alphanumeric/whitespace characters, trim surrounding whitespace
(Rust: `s.to_lowercase().chars().filter(..).collect::<String>().trim()`). -/
def normalizeChars (l : List Char) : List Char :=
  trimChars ((l.map Char.toLower).filter keepChar)

/-- Model of `SongMetadata::normalize_str` (src/metadata.rs, lines 211-222):
lowercase, strip punctuation, trim; an absent input maps to the empty key. -/
def SongMetadata.normalize_str (input : Option String) : String :=
  match input with
  | some s => (normalizeChars s.toList).asString
  | none => ""

/-- Oracle for the external collaborators the dedup engine consults:
file sizes (`get_file_size`, 0 on a metadata error, so an arbitrary
`Nat`-valued function covers both cases), the inode/device identity check
(`are_files_hard_linked`), whether `std::fs::remove_file` succeeds on a
path, and `Path::parent`. -/
structure Env where
  fileSize : String → Nat
  hardLinked : String → String → Bool
  removeOk : String → Bool
  parentDir : String → Option String

/-- `(s_a as i64 - s_b as i64).abs() as u64` for file sizes: modelled as
the exact distance on `Nat` (the `u64`→`i64` cast wrap is not modelled;
it only differs for sizes at or above 2^63). -/
def sizeDiff (a b : Nat) : Nat := ((a : Int) - (b : Int)).natAbs

/-- Model of `is_same_song` (src/dedup.rs, lines 318-349).  The Rust ISRC
block may `return` early or fall through to the title+size fallback; the
fall-through is modelled by the `Option Bool` intermediate. -/
def is_same_song (env : Env) (a b : SongMetadata) : Bool :=
  let isrcStep : Option Bool :=
    match a.isrc, b.isrc with
    | some isrc_a, some isrc_b =>
      if isrc_a = isrc_b then some true
      else if ¬isrc_a.isEmpty ∧ ¬isrc_b.isEmpty then some false
      else none
    | _, _ => none
  match isrcStep with
  | some r => r
  | none =>
    let title_a := SongMetadata.normalize_str a.title
    let title_b := SongMetadata.normalize_str b.title
    if title_a ≠ title_b then false
    else
      match a.file_path, b.file_path with
      | some path_a, some path_b =>
        let s_a := env.fileSize path_a
        let s_b := env.fileSize path_b
        if 0 < s_a ∧ 0 < s_b then
          decide (sizeDiff s_a s_b < s_a / 100)
        else false
      | _, _ => false

/-- One album of one artist, mirroring `AlbumEntry` (src/dedup.rs):
original display name plus the list of its songs. -/
structure AlbumEntry where
  name : String
  songs : List SongMetadata
deriving DecidableEq, Repr

/-- Classification of the overlap of two albums, mirroring the Rust enum
`AlbumRelation` (src/dedup.rs, lines 20-27). -/
inductive AlbumRelation where
  | Identical
  | Subset
  | Superset
  | PartialOverlap
  | Disjoint
deriving DecidableEq, Repr

/-- The match-counting loop of `compare_albums`: for each song of `aSongs`
the inner Rust loop over `bSongs` increments `matches` at the first
identity match and `break`s, i.e. it adds 1 exactly when some song of
`bSongs` matches. -/
def matchLoop (env : Env) (bSongs aSongs : List SongMetadata) : Nat :=
  aSongs.foldl
    (fun m song_a =>
      if bSongs.any (fun song_b => is_same_song env song_a song_b) then m + 1 else m)
    0

/-- Model of `compare_albums` (src/dedup.rs, lines 236-264).  The Rust
function wraps the relation in a one-field `ComparisonData` struct, which
is elided here; `matchCount` is the Rust local `matches` (a Lean keyword). -/
def compare_albums (env : Env) (a b : AlbumEntry) : AlbumRelation :=
  let matchCount := matchLoop env b.songs a.songs
  let a_len := a.songs.length
  let b_len := b.songs.length
  if matchCount = 0 then .Disjoint
  else if matchCount = a_len ∧ matchCount = b_len then .Identical
  else if matchCount = a_len ∧ matchCount < b_len then .Subset
  else if matchCount = b_len ∧ matchCount < a_len then .Superset
  else .PartialOverlap

/-- Spec-side match count for claim C1: "the count of songs in A that
identity-match (is_same_song) some song in B". -/
def specMatches (env : Env) (a b : AlbumEntry) : Nat :=
  a.songs.countP (fun song_a => b.songs.any (fun song_b => is_same_song env song_a song_b))

/-- Spec-side exchange of `Subset` and `Superset`, fixing the three
symmetric relations (claim C2's "with Subset and Superset exchanged"). -/
def swapRel : AlbumRelation → AlbumRelation
  | .Subset => .Superset
  | .Superset => .Subset
  | r => r

/-- A counting fold starting at `n` adds `countP`. -/
lemma foldl_count (p : α → Bool) (l : List α) (n : Nat) :
    l.foldl (fun m x => if p x then m + 1 else m) n = n + l.countP p := by
  induction l generalizing n with
  | nil => simp
  | cons x xs ih =>
    by_cases h : p x
    · simp [h, ih, List.countP_cons]
      omega
    · simp [h, ih, List.countP_cons]

/-- The imperative match-counting loop of `compare_albums` computes the
declarative count `specMatches`. -/
lemma matchLoop_eq_specMatches (env : Env) (a b : AlbumEntry) :
    matchLoop env b.songs a.songs = specMatches env a b := by
  unfold matchLoop specMatches
  rw [foldl_count]
  exact Nat.zero_add _

/-- `compare_albums` as a declarative conditional chain over `specMatches`
(shared backbone of the claims about the album relation). -/
lemma compare_albums_eq (env : Env) (a b : AlbumEntry) :
    compare_albums env a b =
      (if specMatches env a b = 0 then AlbumRelation.Disjoint
       else if specMatches env a b = a.songs.length ∧
           specMatches env a b = b.songs.length then AlbumRelation.Identical
       else if specMatches env a b = a.songs.length ∧
           specMatches env a b < b.songs.length then AlbumRelation.Subset
       else if specMatches env a b = b.songs.length ∧
           specMatches env a b < a.songs.length then AlbumRelation.Superset
       else AlbumRelation.PartialOverlap) := by
  unfold compare_albums
  rw [matchLoop_eq_specMatches]

-- Concrete fixtures used by counterexamples and witnesses.

/-- A song identified only by ISRC `"X"`. -/
def songX : SongMetadata := ⟨none, none, none, some "X", none⟩

/-- An album holding two physical copies of the same recording. -/
def albumAA : AlbumEntry := ⟨"A", [songX, songX]⟩

/-- A one-track album holding that recording once. -/
def albumB : AlbumEntry := ⟨"B", [songX]⟩

/-- A trivial oracle: every file has size 0, nothing is hard-linked. -/
def env0 : Env := ⟨fun _ => 0, fun _ _ => false, fun _ => true, fun _ => none⟩

/-- C1: for albums A and B, `compare_albums` returns Disjoint when
`matches = 0`, else Identical when `matches = |A| = |B|`, else Subset when
`matches = |A| < |B|`, else Superset when `matches = |B| < |A|`, and
PartialOverlap otherwise, where `matches` counts the songs of A that
identity-match some song of B. -/
theorem compare_albums_spec (env : Env) (a b : AlbumEntry) :
    compare_albums env a b =
      (if specMatches env a b = 0 then AlbumRelation.Disjoint
       else if specMatches env a b = a.songs.length ∧
           specMatches env a b = b.songs.length then AlbumRelation.Identical
       else if specMatches env a b = a.songs.length ∧
           specMatches env a b < b.songs.length then AlbumRelation.Subset
       else if specMatches env a b = b.songs.length ∧
           specMatches env a b < a.songs.length then AlbumRelation.Superset
       else AlbumRelation.PartialOverlap) :=
  compare_albums_eq env a b

/-- C2 counterexample: with an album containing two copies of one
recording and a one-track album containing that same recording, the swap
of `compare_albums` in one direction (PartialOverlap, which the claim says
is preserved by swapping) differs from the other direction (Subset). -/
theorem compare_albums_swap_cex :
    compare_albums env0 albumB albumAA ≠
      swapRel (compare_albums env0 albumAA albumB) := by
  decide

/-- C2 (amended): whenever the match count is symmetric between the two
albums, swapping the arguments of `compare_albums` exchanges Subset and
Superset and preserves Identical, Disjoint and PartialOverlap. -/
theorem compare_albums_swap (env : Env) (a b : AlbumEntry)
    (h : specMatches env a b = specMatches env b a) :
    compare_albums env b a = swapRel (compare_albums env a b) := by
  rw [compare_albums_eq, compare_albums_eq, h]
  split_ifs <;> simp_all [swapRel] <;> omega

/-- C2 witness: the amended swap law instantiated at one-track albums with
a symmetric match count. -/
theorem compare_albums_swap_witness :
    compare_albums env0 albumB albumB = swapRel (compare_albums env0 albumB albumB) :=
  compare_albums_swap env0 albumB albumB (by decide)

/-- C3: two records carrying different non-empty ISRCs are never
classified as the same recording, whatever their titles and sizes. -/
theorem is_same_song_isrc_ne (env : Env) (a b : SongMetadata) (ia ib : String)
    (ha : a.isrc = some ia) (hb : b.isrc = some ib)
    (hne : ia ≠ ib) (hea : ia ≠ "") (heb : ib ≠ "") :
    is_same_song env a b = false := by
  unfold is_same_song
  rw [ha, hb]
  simp [hne, String.isEmpty_iff, hea, heb]

/-- C3 witness: ISRCs "A1" versus "B2" with identical titles. -/
theorem is_same_song_isrc_ne_witness :
    is_same_song env0 ⟨some "Song", none, none, some "A1", none⟩
      ⟨some "Song", none, none, some "B2", none⟩ = false :=
  is_same_song_isrc_ne env0 _ _ "A1" "B2" rfl rfl
    (by decide) (by decide) (by decide)

/-- An oracle assigning the spec scenario's file sizes to paths `p1`, `p2`. -/
def env1 : Env :=
  ⟨fun p => if p = "p1" then 10000000 else 10200000,
   fun _ _ => false, fun _ => true, fun _ => none⟩

/-- C4: two records carrying the same non-empty ISRC are always classified
as the same recording, whatever their other fields. -/
theorem is_same_song_isrc_eq (env : Env) (a b : SongMetadata) (i : String)
    (ha : a.isrc = some i) (hb : b.isrc = some i) (_hi : i ≠ "") :
    is_same_song env a b = true := by
  unfold is_same_song
  rw [ha, hb]
  simp

/-- C4 witness: the spec scenario — same ISRC "A1", sizes 10,000,000 and
10,200,000 (2% apart, beyond the fallback tolerance). -/
theorem is_same_song_isrc_eq_witness :
    is_same_song env1 ⟨some "Song", some "X", none, some "A1", some "p1"⟩
      ⟨some "Song", some "X", none, some "A1", some "p2"⟩ = true :=
  is_same_song_isrc_eq env1 _ _ "A1" rfl rfl (by decide)

/-- C9: two records whose ISRC fields are both present but empty are
classified as the same recording immediately, because the equality test on
present ISRCs precedes the non-emptiness test. -/
theorem is_same_song_empty_isrc (env : Env) (a b : SongMetadata)
    (ha : a.isrc = some "") (hb : b.isrc = some "") :
    is_same_song env a b = true := by
  unfold is_same_song
  rw [ha, hb]
  simp

/-- C9 witness: different titles and sizes 1 versus 999,999,999, yet both
empty-string ISRCs force a match. -/
theorem is_same_song_empty_isrc_witness :
    is_same_song
      ⟨fun p => if p = "q1" then 1 else 999999999,
       fun _ _ => false, fun _ => true, fun _ => none⟩
      ⟨some "Alpha", none, none, some "", some "q1"⟩
      ⟨some "Beta", none, none, some "", some "q2"⟩ = true :=
  is_same_song_empty_isrc _ _ _ rfl rfl

-- Idempotence of normalization (claim C6).

/-- Lowercasing a character in the lowered range is the identity. -/
lemma toLower_ofNat_fix (n : Nat) (h1 : 65 ≤ n) (h2 : n ≤ 90) :
    (Char.ofNat (n + 32)).toLower = Char.ofNat (n + 32) := by
  interval_cases n <;> decide

/-- `Char.toLower` is idempotent. -/
lemma toLower_toLower (c : Char) : c.toLower.toLower = c.toLower := by
  by_cases h : c.toNat ≥ 65 ∧ c.toNat ≤ 90
  · have hc : c.toLower = Char.ofNat (c.toNat + 32) := by
      unfold Char.toLower
      exact if_pos h
    rw [hc]
    exact toLower_ofNat_fix c.toNat h.1 h.2
  · have hc : c.toLower = c := by
      unfold Char.toLower
      exact if_neg h
    rw [hc, hc]

/-- `dropWhile` is idempotent. -/
lemma dropWhile_idem (p : α → Bool) (l : List α) :
    (l.dropWhile p).dropWhile p = l.dropWhile p := by
  induction l with
  | nil => rfl
  | cons x xs ih =>
    by_cases h : p x
    · simp [List.dropWhile_cons, h, ih]
    · simp [List.dropWhile_cons, h]

/-- `trimRight` only removes characters from the end: an initial segment
remains. -/
lemma trimRight_front (l : List Char) : trimRight l <+: l := by
  rcases List.dropWhile_suffix (l := l.reverse) Char.isWhitespace with ⟨t, ht⟩
  refine ⟨t.reverse, ?_⟩
  show ((l.reverse).dropWhile Char.isWhitespace).reverse ++ t.reverse = l
  rw [← List.reverse_append, ht, List.reverse_reverse]

/-- `trimRight` is idempotent. -/
lemma trimRight_idem (l : List Char) : trimRight (trimRight l) = trimRight l := by
  unfold trimRight
  rw [List.reverse_reverse, dropWhile_idem]

/-- The result of `trimChars` starts with a non-whitespace character, so a
further `dropWhile` leaves it untouched. -/
lemma dropWhile_trimChars (l : List Char) :
    (trimChars l).dropWhile Char.isWhitespace = trimChars l := by
  apply List.dropWhile_eq_self_iff.mpr
  intro hl
  have hpre : trimChars l <+: l.dropWhile Char.isWhitespace := trimRight_front _
  have hne : trimChars l ≠ [] := List.ne_nil_of_length_pos hl
  have hdne : l.dropWhile Char.isWhitespace ≠ [] := by
    intro hcon
    rcases hpre with ⟨t, ht⟩
    rw [hcon] at ht
    exact hne (List.append_eq_nil.mp ht).1
  have hhead : (trimChars l).head hne = (l.dropWhile Char.isWhitespace).head hdne := by
    rw [hpre.head hne]
  have hfix : (l.dropWhile Char.isWhitespace).dropWhile Char.isWhitespace =
      l.dropWhile Char.isWhitespace := dropWhile_idem _ _
  have hnot := List.dropWhile_eq_self_iff.mp hfix (by
    exact List.length_pos.mpr hdne)
  rw [List.get_mk_zero, hhead]
  rw [List.get_mk_zero] at hnot
  exact hnot

/-- `trimChars` is idempotent. -/
lemma trimChars_idem (l : List Char) : trimChars (trimChars l) = trimChars l := by
  calc trimChars (trimChars l)
      = trimRight ((trimChars l).dropWhile Char.isWhitespace) := rfl
    _ = trimRight (trimChars l) := by rw [dropWhile_trimChars]
    _ = trimRight (trimRight (l.dropWhile Char.isWhitespace)) := rfl
    _ = trimRight (l.dropWhile Char.isWhitespace) := trimRight_idem _
    _ = trimChars l := rfl

/-- `trimChars` keeps only characters of its input. -/
lemma trimChars_sublist (l : List Char) : (trimChars l).Sublist l :=
  ((trimRight_front _).sublist).trans (List.dropWhile_sublist _)

/-- Every character surviving normalization passed the keep filter and is
fixed by lowercasing. -/
lemma normalizeChars_mem (c : Char) (l : List Char) (h : c ∈ normalizeChars l) :
    keepChar c = true ∧ c.toLower = c := by
  have hf : c ∈ (l.map Char.toLower).filter keepChar :=
    (trimChars_sublist _).subset h
  refine ⟨(List.mem_filter.mp hf).2, ?_⟩
  have hm : c ∈ l.map Char.toLower := (List.mem_filter.mp hf).1
  rcases List.mem_map.mp hm with ⟨d, _, hd⟩
  rw [← hd]
  exact toLower_toLower d

/-- `normalizeChars` is idempotent. -/
lemma normalizeChars_idem (l : List Char) :
    normalizeChars (normalizeChars l) = normalizeChars l := by
  have hmap : (normalizeChars l).map Char.toLower = normalizeChars l := by
    rw [List.map_congr_left (fun a ha => (normalizeChars_mem a l ha).2)]
    exact List.map_id _
  have hfil : (normalizeChars l).filter keepChar = normalizeChars l :=
    List.filter_eq_self.mpr (fun a ha => (normalizeChars_mem a l ha).1)
  calc normalizeChars (normalizeChars l)
      = trimChars (((normalizeChars l).map Char.toLower).filter keepChar) := rfl
    _ = trimChars (normalizeChars l) := by rw [hmap, hfil]
    _ = trimChars (trimChars ((l.map Char.toLower).filter keepChar)) := rfl
    _ = trimChars ((l.map Char.toLower).filter keepChar) := trimChars_idem _
    _ = normalizeChars l := rfl

/-- Observable actions of the dedup run.  Filesystem calls and terminal
interaction are modelled as an emitted effect trace: `removeFile`,
`removeDir` and `hardLink` are the mutating calls (the attempt itself,
whether or not the OS reports success), `promptLine` is a blocking
interactive read, and `info` / `errorLog` / `println` are pure output. -/
inductive Eff where
  | info (msg : String)
  | errorLog (msg : String)
  | println (msg : String)
  | promptLine (msg : String)
  | removeFile (path : String)
  | removeDir (path : String)
  | hardLink (src target : String)
deriving DecidableEq, Repr

/-- Effects that mutate the filesystem. -/
def isMutation : Eff → Bool
  | .removeFile _ => true
  | .removeDir _ => true
  | .hardLink _ _ => true
  | _ => false

/-- Effects that block on interactive input. -/
def isPrompt : Eff → Bool
  | .promptLine _ => true
  | _ => false

/-- An effect that neither mutates the filesystem nor prompts. -/
def benign (e : Eff) : Bool := !isMutation e && !isPrompt e

/-- Model of `delete_file` (src/dedup.rs, lines 364-376): log, and unless
`dry_run` attempt the removal; on failure log and stop, on success attempt
to remove the parent directory (result ignored). -/
def delete_file (env : Env) (path : String) (dry_run : Bool) : List Eff :=
  Eff.info ("Deleting file: " ++ path) ::
    (if dry_run then []
     else if env.removeOk path then
       Eff.removeFile path ::
         (match env.parentDir path with
          | some parent => [Eff.removeDir parent]
          | none => [])
     else [Eff.removeFile path, Eff.errorLog ("Error deleting " ++ path)])

/-- Model of `hard_link_file` (src/dedup.rs, lines 286-299): log, and
unless `dry_run` delete the target and link the source to its former path;
if the delete fails, log and do not link. -/
def hard_link_file (env : Env) (src target : String) (dry_run : Bool) : List Eff :=
  Eff.info ("Hard Linking: " ++ target ++ " -> " ++ src) ::
    (if dry_run then []
     else if env.removeOk target then [Eff.removeFile target, Eff.hardLink src target]
     else [Eff.removeFile target, Eff.errorLog "Failed to remove target for linking"])

/-- Model of `try_hard_link_albums` (src/dedup.rs, lines 268-284): for
every identity-matched pair of songs with known paths, link only if the
paths differ, are not already hard-linked, and the sizes agree. -/
def try_hard_link_albums (env : Env) (a b : AlbumEntry) (dry_run : Bool) : List Eff :=
  a.songs.flatMap (fun song_a =>
    b.songs.flatMap (fun song_b =>
      if is_same_song env song_a song_b then
        match song_a.file_path, song_b.file_path with
        | some path_a, some path_b =>
          if path_a ≠ path_b ∧ ¬env.hardLinked path_a path_b then
            if env.fileSize path_a = env.fileSize path_b then
              hard_link_file env path_a path_b dry_run
            else []
          else []
        | _, _ => []
      else []))

/-- Model of `delete_album` (src/dedup.rs, lines 355-362). -/
def delete_album (env : Env) (album : AlbumEntry) (dry_run : Bool) : List Eff :=
  Eff.info ("Deleting Album: " ++ album.name) ::
    album.songs.flatMap (fun song =>
      match song.file_path with
      | some p => delete_file env p dry_run
      | none => [])

/-- One artist with its map from normalized album key to album, mirroring
`ArtistEntry` (src/dedup.rs); the `HashMap` is modelled as an association
list. -/
structure ArtistEntry where
  name : String
  albums : List (String × AlbumEntry)
deriving DecidableEq, Repr

/-- The iteration of `find_song_in_other_albums` over the album map. -/
def findSongAux (env : Env) (query : SongMetadata) (excludeKey : String) :
    List (String × AlbumEntry) → Option String
  | [] => none
  | (key, album) :: rest =>
    if key = excludeKey ∨ album.songs.length ≤ 2 then
      findSongAux env query excludeKey rest
    else if album.songs.any (fun s => is_same_song env query s) then some album.name
    else findSongAux env query excludeKey rest

/-- Model of `find_song_in_other_albums` (src/dedup.rs, lines 108-125):
the first album other than `excludeKey` with more than 2 tracks containing
an identity match of `query`. -/
def find_song_in_other_albums (env : Env) (query : SongMetadata)
    (artist : ArtistEntry) (excludeKey : String) : Option String :=
  findSongAux env query excludeKey artist.albums

/-- Scan phase of `remove_redundant_singles`: every (song, parent-album)
hit found while walking albums with at most 2 songs.  (The Rust loop walks
`albums_to_check`, the cloned key list, and re-fetches each album; the
association list is walked directly here.) -/
def singleHits (env : Env) (artist : ArtistEntry) : List (SongMetadata × String) :=
  artist.albums.flatMap (fun ka =>
    if ka.2.songs.length ≤ 2 then
      ka.2.songs.flatMap (fun song =>
        match find_song_in_other_albums env song artist ka.1 with
        | some parent => [(song, parent)]
        | none => [])
    else [])

/-- The paths `remove_redundant_singles` schedules for deletion
(`singles_to_remove` in the Rust). -/
def singlesToRemove (env : Env) (artist : ArtistEntry) : List String :=
  (singleHits env artist).flatMap (fun hit =>
    match hit.1.file_path with
    | some p => [p]
    | none => [])

/-- Model of `remove_redundant_singles` (src/dedup.rs, lines 77-106):
log each hit during the scan, then delete every scheduled path. -/
def remove_redundant_singles (env : Env) (artist : ArtistEntry) (dry_run : Bool) :
    List Eff :=
  (singleHits env artist).map (fun hit =>
      Eff.info ("Found Single included in Album " ++ hit.2)) ++
    (singlesToRemove env artist).flatMap (fun p => delete_file env p dry_run)

/-- `find_song_in_other_albums` succeeds exactly when some other album of
the artist with more than 2 tracks contains an identity match. -/
lemma findSong_isSome_iff (env : Env) (query : SongMetadata) (artist : ArtistEntry)
    (excludeKey : String) :
    (find_song_in_other_albums env query artist excludeKey).isSome = true ↔
      ∃ ko albo, (ko, albo) ∈ artist.albums ∧ ko ≠ excludeKey ∧
        2 < albo.songs.length ∧ ∃ t ∈ albo.songs, is_same_song env query t = true := by
  unfold find_song_in_other_albums
  induction artist.albums with
  | nil => simp [findSongAux]
  | cons ka rest ih =>
    obtain ⟨k, album⟩ := ka
    by_cases hskip : k = excludeKey ∨ album.songs.length ≤ 2
    · rw [show findSongAux env query excludeKey ((k, album) :: rest) =
          findSongAux env query excludeKey rest by
          simp [findSongAux, hskip]]
      rw [ih]
      constructor
      · rintro ⟨ko, albo, hm, hk, hl, ht⟩
        exact ⟨ko, albo, List.mem_cons_of_mem _ hm, hk, hl, ht⟩
      · rintro ⟨ko, albo, hm, hk, hl, ht⟩
        rcases List.mem_cons.mp hm with heq | hm2
        · exfalso
          have e12 : ko = k ∧ albo = album := by simpa using heq
          rcases hskip with h1 | h1
          · exact hk (e12.1.trans h1)
          · rw [e12.2] at hl
            omega
        · exact ⟨ko, albo, hm2, hk, hl, ht⟩
    · push_neg at hskip
      by_cases hany : album.songs.any (fun s => is_same_song env query s)
      · rw [show findSongAux env query excludeKey ((k, album) :: rest) =
            some album.name by
            simp only [findSongAux]
            rw [if_neg (by push_neg; exact hskip), if_pos hany]]
        simp only [Option.isSome_some, true_iff]
        rcases List.any_eq_true.mp hany with ⟨t, htm, hts⟩
        exact ⟨k, album, List.mem_cons_self _ _, hskip.1, by omega, t, htm, hts⟩
      · rw [show findSongAux env query excludeKey ((k, album) :: rest) =
            findSongAux env query excludeKey rest by
            simp only [findSongAux]
            rw [if_neg (by push_neg; exact hskip), if_neg hany]]
        rw [ih]
        constructor
        · rintro ⟨ko, albo, hm, hk, hl, ht⟩
          exact ⟨ko, albo, List.mem_cons_of_mem _ hm, hk, hl, ht⟩
        · rintro ⟨ko, albo, hm, hk, hl, ht⟩
          rcases List.mem_cons.mp hm with heq | hm2
          · exfalso
            have e12 : ko = k ∧ albo = album := by simpa using heq
            rcases ht with ⟨t, htm, hts⟩
            apply hany
            rw [e12.2] at htm
            exact List.any_eq_true.mpr ⟨t, htm, hts⟩
          · exact ⟨ko, albo, hm2, hk, hl, ht⟩

/-- C10: the redundant-singles pre-pass schedules deletions per track: a
path is scheduled exactly when one song carrying it sits in an album with
at most 2 tracks and that song alone identity-matches a track of some
other album of the same artist with more than 2 tracks — independent of
whether the album's remaining tracks match anything. -/
theorem singles_per_track (env : Env) (artist : ArtistEntry) (p : String) :
    p ∈ singlesToRemove env artist ↔
      ∃ k album song, (k, album) ∈ artist.albums ∧ album.songs.length ≤ 2 ∧
        song ∈ album.songs ∧ song.file_path = some p ∧
        (∃ ko albo, (ko, albo) ∈ artist.albums ∧ ko ≠ k ∧
          2 < albo.songs.length ∧
          ∃ t ∈ albo.songs, is_same_song env song t = true) := by
  unfold singlesToRemove singleHits
  constructor
  · intro hp
    rcases List.mem_flatMap.mp hp with ⟨hit, hhit, hpath⟩
    rcases List.mem_flatMap.mp hhit with ⟨ka, hka, hsong⟩
    by_cases hlen : ka.2.songs.length ≤ 2
    · rw [if_pos hlen] at hsong
      rcases List.mem_flatMap.mp hsong with ⟨song, hsm, hfind⟩
      rcases hfound : find_song_in_other_albums env song artist ka.1 with _ | parent
      · rw [hfound] at hfind
        simp at hfind
      · rw [hfound] at hfind
        have hhit_eq : hit = (song, parent) := by
          simpa using hfind
        have hsome : (find_song_in_other_albums env song artist ka.1).isSome = true := by
          rw [hfound]; rfl
        rcases (findSong_isSome_iff env song artist ka.1).mp hsome with
          ⟨ko, albo, hmo, hko, hlo, hto⟩
        refine ⟨ka.1, ka.2, song, by simpa using hka, hlen, hsm, ?_,
          ko, albo, hmo, hko, hlo, hto⟩
        rw [hhit_eq] at hpath
        rcases hfp : song.file_path with _ | q
        · rw [hfp] at hpath; simp at hpath
        · rw [hfp] at hpath
          have hq : p = q := by simpa using hpath
          rw [hq]
    · rw [if_neg hlen] at hsong
      simp at hsong
  · rintro ⟨k, album, song, hmem, hlen, hsm, hfp, ko, albo, hmo, hko, hlo, hto⟩
    have hsome : (find_song_in_other_albums env song artist k).isSome = true :=
      (findSong_isSome_iff env song artist k).mpr ⟨ko, albo, hmo, hko, hlo, hto⟩
    rcases hfound : find_song_in_other_albums env song artist k with _ | parent
    · rw [hfound] at hsome; simp at hsome
    · apply List.mem_flatMap.mpr
      refine ⟨(song, parent), ?_, by simp [hfp]⟩
      apply List.mem_flatMap.mpr
      refine ⟨(k, album), hmem, ?_⟩
      rw [if_pos hlen]
      apply List.mem_flatMap.mpr
      exact ⟨song, hsm, by simp [hfound]⟩

/-- Model of `read_user_input` (src/dedup.rs, lines 378-383): read one
line of stdin (empty at end of input), trim and parse, defaulting to 0. -/
def read_user_input (stdin : List String) : Nat × List String :=
  match stdin with
  | [] => (0, [])
  | line :: rest => ((line.trim.toNat?).getD 0, rest)

/-- Model of `read_yes_no` (src/dedup.rs, lines 385-391). -/
def read_yes_no (stdin : List String) : Bool × List String :=
  match stdin with
  | [] => (false, [])
  | line :: rest =>
    ((line.trim.toLower = "y" || line.trim.toLower = "yes" : Bool), rest)

/-- Handling of one album pair inside `process_albums` (src/dedup.rs,
lines 148-227): the `match relation.relation` body, returning the emitted
effects and the remaining stdin. -/
def process_pair (env : Env) (artistName : String) (album_a album_b : AlbumEntry)
    (dry_run use_hard_links : Bool) (stdin : List String) : List Eff × List String :=
  match compare_albums env album_a album_b with
  | .Disjoint => ([], stdin)
  | .Identical =>
    let header : List Eff :=
      [Eff.println "---------------------------------------------------------",
       Eff.println ("DUPLICATE ALBUMS DETECTED: " ++ artistName),
       Eff.println ("1. " ++ album_a.name),
       Eff.println ("2. " ++ album_b.name),
       Eff.println "(Both albums contain the exact same song set)"]
    if dry_run then
      (header ++ [Eff.info "[Dry Run] Would prompt user to resolve identical albums."],
       stdin)
    else
      let r := read_user_input stdin
      let chosen : List Eff :=
        if r.1 = 1 then delete_album env album_a dry_run
        else if r.1 = 2 then delete_album env album_b dry_run
        else
          Eff.println "Keeping both." ::
            (if use_hard_links then try_hard_link_albums env album_a album_b dry_run
             else [])
      (header ++
        Eff.promptLine "Select option [0=Keep Both, 1=Delete 1st, 2=Delete 2nd]: " ::
        chosen, r.2)
  | .Subset =>
    let header : List Eff :=
      [Eff.println "---------------------------------------------------------",
       Eff.println ("REDUNDANT ALBUM DETECTED: " ++ artistName),
       Eff.println ("Album " ++ album_a.name ++ " is completely included in " ++
         album_b.name),
       Eff.println (album_a.name ++ " song count"),
       Eff.println (album_b.name ++ " song count")]
    if dry_run then
      (header ++ [Eff.info ("[Dry Run] Would prompt to delete subset " ++ album_a.name)],
       stdin)
    else
      let r := read_yes_no stdin
      (header ++
        Eff.promptLine ("Delete subset album " ++ album_a.name ++ "? [y/N]: ") ::
        (if r.1 then delete_album env album_a dry_run else []), r.2)
  | .Superset =>
    let header : List Eff :=
      [Eff.println "---------------------------------------------------------",
       Eff.println ("REDUNDANT ALBUM DETECTED: " ++ artistName),
       Eff.println ("Album " ++ album_b.name ++ " is completely included in " ++
         album_a.name)]
    if dry_run then
      (header ++ [Eff.info ("[Dry Run] Would prompt to delete subset " ++ album_b.name)],
       stdin)
    else
      let r := read_yes_no stdin
      (header ++
        Eff.promptLine ("Delete subset album " ++ album_b.name ++ "? [y/N]: ") ::
        (if r.1 then delete_album env album_b dry_run else []), r.2)
  | .PartialOverlap =>
    if use_hard_links then
      (Eff.info ("Partial overlap between " ++ album_a.name ++ " and " ++
          album_b.name ++ ". Attempting hard links for shared songs...") ::
        try_hard_link_albums env album_a album_b dry_run, stdin)
    else ([], stdin)

/-- Inner loop of `process_albums`: one album against each later album. -/
def process_inner (env : Env) (artistName : String) (album_a : AlbumEntry)
    (dry_run use_hard_links : Bool) :
    List (String × AlbumEntry) → List String → List Eff × List String
  | [], stdin => ([], stdin)
  | kb :: rest, stdin =>
    let this_pair := process_pair env artistName album_a kb.2 dry_run use_hard_links stdin
    let more := process_inner env artistName album_a dry_run use_hard_links rest this_pair.2
    (this_pair.1 ++ more.1, more.2)

/-- Outer loop of `process_albums` over index pairs i < j.  (The Rust
`processed_pairs` set guard never fires: HashMap keys are unique, so every
`(key_a, key_b)` with i < j is seen once; it is elided here.) -/
def process_outer (env : Env) (artistName : String) (dry_run use_hard_links : Bool) :
    List (String × AlbumEntry) → List String → List Eff × List String
  | [], stdin => ([], stdin)
  | ka :: rest, stdin =>
    let inner := process_inner env artistName ka.2 dry_run use_hard_links rest stdin
    let outer := process_outer env artistName dry_run use_hard_links rest inner.2
    (inner.1 ++ outer.1, outer.2)

/-- Model of `process_albums` (src/dedup.rs, lines 129-230). -/
def process_albums (env : Env) (artist : ArtistEntry) (dry_run use_hard_links : Bool)
    (stdin : List String) : List Eff × List String :=
  process_outer env artist.name dry_run use_hard_links artist.albums stdin

/-- Insertion of one song into an artist's album map
(`albums.entry(album_norm).or_insert_with(..)` followed by the push). -/
def upsertAlbum (albums : List (String × AlbumEntry)) (key : String)
    (song : SongMetadata) : List (String × AlbumEntry) :=
  match albums with
  | [] => [(key, ⟨song.album.getD key, [song]⟩)]
  | (k, alb) :: rest =>
    if k = key then (k, ⟨alb.name, alb.songs ++ [song]⟩) :: rest
    else (k, alb) :: upsertAlbum rest key song

/-- Insertion of one song into the artist map
(`artists.entry(artist_norm).or_insert_with(..)`). -/
def upsertArtist (artists : List (String × ArtistEntry)) (akey alkey : String)
    (song : SongMetadata) : List (String × ArtistEntry) :=
  match artists with
  | [] => [(akey, ⟨song.artist.getD akey, upsertAlbum [] alkey song⟩)]
  | (k, art) :: rest =>
    if k = akey then (k, ⟨art.name, upsertAlbum art.albums alkey song⟩) :: rest
    else (k, art) :: upsertArtist rest akey alkey song

/-- Step 1 of `run` (src/dedup.rs, lines 36-61): the Artist → Album →
Songs hierarchy; songs with an empty normalized artist or album key are
skipped. -/
def buildHierarchy (songs : List SongMetadata) : List (String × ArtistEntry) :=
  songs.foldl
    (fun artists song =>
      let artist_norm := SongMetadata.normalize_str song.artist
      let album_norm := SongMetadata.normalize_str song.album
      if artist_norm.isEmpty || album_norm.isEmpty then artists
      else upsertArtist artists artist_norm album_norm song)
    []

/-- Step 2 of `run`: per artist, the singles pass then the album pass.
(`remove_redundant_singles` takes the artist by `&mut` but only deletes
files on disk; the in-memory album lists are unchanged.) -/
def runArtists (env : Env) (dry_run use_hard_links : Bool) :
    List (String × ArtistEntry) → List String → List Eff × List String
  | [], stdin => ([], stdin)
  | ka :: rest, stdin =>
    let singles := remove_redundant_singles env ka.2 dry_run
    let albums := process_albums env ka.2 dry_run use_hard_links stdin
    let more := runArtists env dry_run use_hard_links rest albums.2
    (Eff.info ("Analyzing artist: " ++ ka.2.name) :: (singles ++ albums.1 ++ more.1),
     more.2)

/-- Model of `dedup::run` (src/dedup.rs, lines 31-73): build the hierarchy,
then analyze every artist. -/
def dedupRun (env : Env) (songs : List SongMetadata) (dry_run use_hard_links : Bool)
    (stdin : List String) : List Eff × List String :=
  runArtists env dry_run use_hard_links (buildHierarchy songs) stdin

-- Dry-run purity (claim C5): every branch of the run only logs.

/-- In dry-run mode `delete_file` only logs. -/
lemma benign_delete_file (env : Env) (p : String) :
    ∀ e ∈ delete_file env p true, benign e = true := by
  intro e he
  have h1 : e ∈ [Eff.info ("Deleting file: " ++ p)] := he
  have h2 := List.mem_singleton.mp h1
  subst h2
  rfl

/-- In dry-run mode `hard_link_file` only logs. -/
lemma benign_hard_link_file (env : Env) (src target : String) :
    ∀ e ∈ hard_link_file env src target true, benign e = true := by
  intro e he
  have h1 : e ∈ [Eff.info ("Hard Linking: " ++ target ++ " -> " ++ src)] := he
  have h2 := List.mem_singleton.mp h1
  subst h2
  rfl

/-- In dry-run mode `try_hard_link_albums` only logs. -/
lemma benign_try_hard_link (env : Env) (a b : AlbumEntry) :
    ∀ e ∈ try_hard_link_albums env a b true, benign e = true := by
  intro e he
  rcases List.mem_flatMap.mp he with ⟨sa, _hsa, he2⟩
  rcases List.mem_flatMap.mp he2 with ⟨sb, _hsb, he3⟩
  repeat' split at he3
  all_goals first
    | exact benign_hard_link_file env _ _ e he3
    | simp at he3

/-- In dry-run mode `delete_album` only logs. -/
lemma benign_delete_album (env : Env) (album : AlbumEntry) :
    ∀ e ∈ delete_album env album true, benign e = true := by
  intro e he
  rcases List.mem_cons.mp he with rfl | he1
  · rfl
  · rcases List.mem_flatMap.mp he1 with ⟨s, _hs, he2⟩
    split at he2
    · exact benign_delete_file env _ e he2
    · simp at he2

/-- In dry-run mode `remove_redundant_singles` only logs. -/
lemma benign_singles (env : Env) (artist : ArtistEntry) :
    ∀ e ∈ remove_redundant_singles env artist true, benign e = true := by
  intro e he
  rcases List.mem_append.mp he with h | h
  · rcases List.mem_map.mp h with ⟨hit, _hm, rfl⟩
    rfl
  · rcases List.mem_flatMap.mp h with ⟨p, _hp, h2⟩
    exact benign_delete_file env p e h2

/-- In dry-run mode one album pair only logs and reads no input. -/
lemma process_pair_dry (env : Env) (n : String) (a b : AlbumEntry) (u : Bool)
    (stdin : List String) :
    (∀ e ∈ (process_pair env n a b true u stdin).1, benign e = true) ∧
      (process_pair env n a b true u stdin).2 = stdin := by
  cases hrel : compare_albums env a b
  case PartialOverlap =>
    by_cases hu : u
    · constructor
      · intro e he
        have he2 : e ∈ Eff.info ("Partial overlap between " ++ a.name ++ " and " ++
            b.name ++ ". Attempting hard links for shared songs...") ::
              try_hard_link_albums env a b true := by
          simpa [process_pair, hrel, hu] using he
        rcases List.mem_cons.mp he2 with rfl | he1
        · rfl
        · exact benign_try_hard_link env a b e he1
      · simp [process_pair, hrel, hu]
    · constructor
      · intro e he
        simp [process_pair, hrel, hu] at he
      · simp [process_pair, hrel, hu]
  all_goals simp [process_pair, hrel, benign, isMutation, isPrompt]

/-- In dry-run mode the inner album loop only logs and reads no input. -/
lemma process_inner_dry (env : Env) (n : String) (a : AlbumEntry) (u : Bool) :
    ∀ (l : List (String × AlbumEntry)) (stdin : List String),
      (∀ e ∈ (process_inner env n a true u l stdin).1, benign e = true) ∧
        (process_inner env n a true u l stdin).2 = stdin := by
  intro l
  induction l with
  | nil => intro stdin; exact ⟨by intro e he; simp [process_inner] at he, rfl⟩
  | cons kb rest ih =>
    intro stdin
    have hpair := process_pair_dry env n a kb.2 u stdin
    have hrest := ih (process_pair env n a kb.2 true u stdin).2
    constructor
    · intro e he
      rcases List.mem_append.mp he with h | h
      · exact hpair.1 e h
      · exact hrest.1 e h
    · show (process_inner env n a true u rest (process_pair env n a kb.2 true u stdin).2).2 = stdin
      rw [hrest.2, hpair.2]

/-- In dry-run mode the outer album loop only logs and reads no input. -/
lemma process_outer_dry (env : Env) (n : String) (u : Bool) :
    ∀ (l : List (String × AlbumEntry)) (stdin : List String),
      (∀ e ∈ (process_outer env n true u l stdin).1, benign e = true) ∧
        (process_outer env n true u l stdin).2 = stdin := by
  intro l
  induction l with
  | nil => intro stdin; exact ⟨by intro e he; simp [process_outer] at he, rfl⟩
  | cons ka rest ih =>
    intro stdin
    have hinner := process_inner_dry env n ka.2 u rest stdin
    have hrest := ih (process_inner env n ka.2 true u rest stdin).2
    constructor
    · intro e he
      rcases List.mem_append.mp he with h | h
      · exact hinner.1 e h
      · exact hrest.1 e h
    · show (process_outer env n true u rest
        (process_inner env n ka.2 true u rest stdin).2).2 = stdin
      rw [hrest.2, hinner.2]

/-- In dry-run mode the whole per-artist pass only logs and reads no
input. -/
lemma runArtists_dry (env : Env) (u : Bool) :
    ∀ (l : List (String × ArtistEntry)) (stdin : List String),
      (∀ e ∈ (runArtists env true u l stdin).1, benign e = true) ∧
        (runArtists env true u l stdin).2 = stdin := by
  intro l
  induction l with
  | nil => intro stdin; exact ⟨by intro e he; simp [runArtists] at he, rfl⟩
  | cons ka rest ih =>
    intro stdin
    have halb := process_outer_dry env ka.2.name u ka.2.albums stdin
    have hrest := ih (process_albums env ka.2 true u stdin).2
    constructor
    · intro e he
      rcases List.mem_cons.mp he with rfl | he1
      · rfl
      · rcases List.mem_append.mp he1 with h | h
        · rcases List.mem_append.mp h with h2 | h2
          · exact benign_singles env ka.2 e h2
          · exact halb.1 e h2
        · exact hrest.1 e h
    · show (runArtists env true u rest (process_albums env ka.2 true u stdin).2).2 = stdin
      rw [hrest.2]
      exact halb.2

/-- C5: with `dry_run` set, the whole album-analysis run — hierarchy
building, the redundant-singles pass and the album-pair resolution —
emits no filesystem mutation (no file removal, no directory removal, no
hard link) and no interactive prompt, and leaves stdin unread; every
emitted effect is pure output. -/
theorem dry_run_no_mutation (env : Env) (songs : List SongMetadata)
    (use_hard_links : Bool) (stdin : List String) :
    (∀ e ∈ (dedupRun env songs true use_hard_links stdin).1,
        isMutation e = false ∧ isPrompt e = false) ∧
      (dedupRun env songs true use_hard_links stdin).2 = stdin := by
  have h := runArtists_dry env use_hard_links (buildHierarchy songs) stdin
  refine ⟨?_, h.2⟩
  intro e he
  have hb := h.1 e he
  simp only [benign, Bool.and_eq_true, Bool.not_eq_true'] at hb
  exact hb

/-- C5 witness: a one-song library produces a nonempty dry-run trace whose
first effect is the analysis log line, and it is neither a mutation nor a
prompt. -/
theorem dry_run_no_mutation_witness :
    isMutation (Eff.info "Analyzing artist: X") = false ∧
      isPrompt (Eff.info "Analyzing artist: X") = false :=
  (dry_run_no_mutation env0 [⟨some "T", some "X", some "A", none, some "p"⟩]
      false []).1 (Eff.info "Analyzing artist: X") (by decide)

-- Hard-link preconditions (claim C8).

/-- Every effect of `try_hard_link_albums` stems from a `hard_link_file`
call whose pair passed all three guards: distinct paths, not already
hard-linked, equal file sizes. -/
lemma try_hard_link_mem (env : Env) (a b : AlbumEntry) (dry : Bool) (e : Eff)
    (he : e ∈ try_hard_link_albums env a b dry) :
    ∃ x y, x ≠ y ∧ env.hardLinked x y = false ∧ env.fileSize x = env.fileSize y ∧
      e ∈ hard_link_file env x y dry := by
  rcases List.mem_flatMap.mp he with ⟨sa, _hsa, he2⟩
  rcases List.mem_flatMap.mp he2 with ⟨sb, _hsb, he3⟩
  repeat' split at he3
  all_goals
    first
      | simp at he3
      | (rename_i hcond hsize
         exact ⟨_, _, hcond.1, by simpa using hcond.2, hsize, he3⟩)

/-- A `hardLink` effect inside `hard_link_file env x y _` names exactly
`x` and `y`. -/
lemma hard_link_file_mem_hardLink (env : Env) (x y : String) (dry : Bool)
    (pa pb : String) (h : Eff.hardLink pa pb ∈ hard_link_file env x y dry) :
    x = pa ∧ y = pb := by
  unfold hard_link_file at h
  rcases List.mem_cons.mp h with heq | h2
  · simp at heq
  · split at h2
    · simp at h2
    · split at h2
      · rcases List.mem_cons.mp h2 with heq | h3
        · simp at heq
        · have h4 := List.mem_singleton.mp h3
          injection h4 with e1 e2
          exact ⟨e1.symm, e2.symm⟩
      · rcases List.mem_cons.mp h2 with heq | h3
        · simp at heq
        · have h4 := List.mem_singleton.mp h3
          simp at h4

/-- A `removeFile` effect inside `hard_link_file env x y _` targets `y`. -/
lemma hard_link_file_mem_removeFile (env : Env) (x y : String) (dry : Bool)
    (p : String) (h : Eff.removeFile p ∈ hard_link_file env x y dry) :
    y = p := by
  unfold hard_link_file at h
  rcases List.mem_cons.mp h with heq | h2
  · simp at heq
  · split at h2
    · simp at h2
    · split at h2
      · rcases List.mem_cons.mp h2 with heq | h3
        · injection heq with e1
          exact e1.symm
        · have h4 := List.mem_singleton.mp h3
          simp at h4
      · rcases List.mem_cons.mp h2 with heq | h3
        · injection heq with e1
          exact e1.symm
        · have h4 := List.mem_singleton.mp h3
          simp at h4

/-- C8: a hard link is attempted only between identity-matched paths that
differ, are not already the same inode/device pair, and have equal file
sizes; and the delete-then-relink (the `removeFile` preceding the link)
is likewise only issued for such a pair, so an already-hard-linked pair
is a no-op. -/
theorem hard_link_guard (env : Env) (a b : AlbumEntry) (dry_run : Bool)
    (pa pb : String) :
    (Eff.hardLink pa pb ∈ try_hard_link_albums env a b dry_run →
      pa ≠ pb ∧ env.hardLinked pa pb = false ∧
        env.fileSize pa = env.fileSize pb) ∧
    (Eff.removeFile pb ∈ try_hard_link_albums env a b dry_run →
      ∃ src, src ≠ pb ∧ env.hardLinked src pb = false ∧
        env.fileSize src = env.fileSize pb) := by
  constructor
  · intro h
    rcases try_hard_link_mem env a b dry_run _ h with ⟨x, y, hxy, hl, hs, hm⟩
    rcases hard_link_file_mem_hardLink env x y dry_run pa pb hm with ⟨rfl, rfl⟩
    exact ⟨hxy, hl, hs⟩
  · intro h
    rcases try_hard_link_mem env a b dry_run _ h with ⟨x, y, hxy, hl, hs, hm⟩
    rcases hard_link_file_mem_removeFile env x y dry_run pb hm with rfl
    exact ⟨x, hxy, hl, hs⟩

/-- An oracle where every file has size 5 and nothing is hard-linked. -/
def env2 : Env := ⟨fun _ => 5, fun _ _ => false, fun _ => true, fun _ => none⟩

/-- Album holding one recording (ISRC "X") at path "p1". -/
def albumP : AlbumEntry := ⟨"P", [⟨none, none, none, some "X", some "p1"⟩]⟩

/-- Album holding the same recording at path "p2". -/
def albumQ : AlbumEntry := ⟨"Q", [⟨none, none, none, some "X", some "p2"⟩]⟩

/-- C8 witness: a real link attempt between `albumP` and `albumQ` (the
trace does contain `hardLink "p1" "p2"`), whose guards therefore hold. -/
theorem hard_link_guard_witness :
    ("p1" : String) ≠ "p2" ∧ env2.hardLinked "p1" "p2" = false ∧
      env2.fileSize "p1" = env2.fileSize "p2" :=
  (hard_link_guard env2 albumP albumQ false "p1" "p2").1 (by decide)

/-- C6: `normalize_str` is idempotent — normalizing an already-normalized
string changes nothing — and an absent input maps to the empty key. -/
theorem normalize_str_idem :
    (∀ s : String,
      SongMetadata.normalize_str (some (SongMetadata.normalize_str (some s))) =
        SongMetadata.normalize_str (some s)) ∧
    SongMetadata.normalize_str none = "" := by
  constructor
  · intro s
    show (normalizeChars ((normalizeChars s.toList).asString).toList).asString =
      (normalizeChars s.toList).asString
    rw [show ((normalizeChars s.toList).asString).toList = normalizeChars s.toList from rfl,
      normalizeChars_idem]
  · rfl

-- Candidate grouping in `Library::new` (claim C7).

/-- Tag fields delivered by the external `MetadataReader` collaborator for
one path (`SongMetadata::fill` via lofty). -/
structure TagData where
  title : Option String
  artist : Option String
  album : Option String
  isrc : Option String
deriving DecidableEq, Repr

/-- `SongMetadata::from(&PathBuf)`: record the path and fill the tags from
the reader oracle. -/
def songFromPath (reader : String → TagData) (p : String) : SongMetadata :=
  ⟨(reader p).title, (reader p).artist, (reader p).album, (reader p).isrc, some p⟩

/-- Split a character list at a separator (the kernel-computable analogue
of `str::split`). -/
def splitOnChar (sep : Char) : List Char → List (List Char)
  | [] => [[]]
  | c :: rest =>
    match splitOnChar sep rest with
    | [] => [[]]
    | grp :: grps => if c = sep then [] :: grp :: grps else (c :: grp) :: grps

/-- Model of `Path::extension` on the string form of a path: the part of
the final component after its last dot; none when there is no dot or the
only dot is a leading one. -/
def pathExtension (p : String) : Option (List Char) :=
  let name := (splitOnChar '/' p.toList).getLastD p.toList
  match splitOnChar '.' name with
  | [] => none
  | [_] => none
  | first :: rest =>
    if first = [] ∧ rest.length = 1 then none
    else rest.getLast?

/-- The extension filter of `Library::new` (src/library.rs, lines 21-27):
`SUPPORTED_EXTENSIONS` is `["flac"]`, compared ASCII-case-insensitively
(modelled by lowercasing). -/
def isFlacPath (p : String) : Bool :=
  match pathExtension p with
  | some ext => ext.map Char.toLower = "flac".toList
  | none => false

/-- One grouping step: push the song onto its key's bucket, creating the
bucket on first use (`acc.entry(key).or_insert_with(Vec::new).push`). -/
def insertSong (acc : List ((String × String) × List SongMetadata))
    (key : String × String) (song : SongMetadata) :
    List ((String × String) × List SongMetadata) :=
  match acc with
  | [] => [(key, [song])]
  | (k, v) :: rest =>
    if k = key then (k, v ++ [song]) :: rest
    else (k, v) :: insertSong rest key song

/-- Model of the grouping of `Library::new` (src/library.rs, lines 14-63):
filter to supported extensions, read each file's tags, and bucket records
by (normalized title, normalized artist).  The rayon fold/reduce is
modelled as the equivalent sequential left fold. -/
def libraryNew (reader : String → TagData) (files : List String) :
    List ((String × String) × List SongMetadata) :=
  (files.filter isFlacPath).foldl
    (fun acc f =>
      let song := songFromPath reader f
      insertSong acc
        (SongMetadata.normalize_str song.title, SongMetadata.normalize_str song.artist)
        song)
    []

/-- Lookup of one candidate group by key (empty when absent). -/
def findGroup (groups : List ((String × String) × List SongMetadata))
    (key : String × String) : List SongMetadata :=
  match groups with
  | [] => []
  | (k, v) :: rest => if k = key then v else findGroup rest key

/-- Tag reader yielding an untitled record credited to artist "X". -/
def reader0 : String → TagData := fun _ => ⟨none, some "X", none, none⟩

/-- C7 counterexample: an untitled flac file is not dropped — its record
lands in the candidate group keyed by the empty normalized title, so a
record with empty normalized title does appear in a group. -/
theorem library_empty_title_cex :
    (⟨none, some "X", none, none, some "a.flac"⟩ : SongMetadata) ∈
        findGroup (libraryNew reader0 ["a.flac"]) ("", "x") ∧
      SongMetadata.normalize_str
        ((⟨none, some "X", none, none, some "a.flac"⟩ : SongMetadata).title) = "" := by
  constructor
  · decide
  · rfl

/-- Inserting under a key appends to exactly that key's bucket. -/
lemma findGroup_insert_self (acc : List ((String × String) × List SongMetadata))
    (key : String × String) (s : SongMetadata) :
    findGroup (insertSong acc key s) key = findGroup acc key ++ [s] := by
  induction acc with
  | nil => simp [insertSong, findGroup]
  | cons kv rest ih =>
    obtain ⟨k, v⟩ := kv
    by_cases hk : k = key
    · simp [insertSong, findGroup, hk]
    · simp [insertSong, findGroup, hk, ih]

/-- Inserting under another key leaves a bucket unchanged. -/
lemma findGroup_insert_other (acc : List ((String × String) × List SongMetadata))
    (key key2 : String × String) (s : SongMetadata) (hne : key2 ≠ key) :
    findGroup (insertSong acc key2 s) key = findGroup acc key := by
  induction acc with
  | nil => simp [insertSong, findGroup, hne]
  | cons kv rest ih =>
    obtain ⟨k, v⟩ := kv
    by_cases hk : k = key2
    · subst hk
      simp [insertSong, findGroup, hne]
    · simp [insertSong, findGroup, hk, ih]

/-- Group membership is preserved and created by the grouping fold. -/
lemma libraryNew_fold_mem (reader : String → TagData)
    (l : List String) (f : String) (key : String × String) :
    ∀ acc, (songFromPath reader f ∈ findGroup acc key ∨
        (f ∈ l ∧ key = (SongMetadata.normalize_str (reader f).title,
          SongMetadata.normalize_str (reader f).artist))) →
      songFromPath reader f ∈
        findGroup (l.foldl (fun acc g =>
          insertSong acc
            (SongMetadata.normalize_str (songFromPath reader g).title,
             SongMetadata.normalize_str (songFromPath reader g).artist)
            (songFromPath reader g)) acc) key := by
  induction l with
  | nil =>
    intro acc h
    rcases h with h | ⟨hf, _⟩
    · exact h
    · simp at hf
  | cons x xs ih =>
    intro acc h
    rw [List.foldl_cons]
    set kx := (SongMetadata.normalize_str (songFromPath reader x).title,
      SongMetadata.normalize_str (songFromPath reader x).artist) with hkx
    rcases h with h | ⟨hf, hkey⟩
    · apply ih
      left
      by_cases hk : kx = key
      · rw [hk, findGroup_insert_self]
        exact List.mem_append_left _ h
      · rw [findGroup_insert_other _ _ _ _ hk]
        exact h
    · rcases List.mem_cons.mp hf with rfl | hxs
      · apply ih
        left
        have hk : kx = key := by
          rw [hkey]
          rfl
        rw [hk, findGroup_insert_self]
        exact List.mem_append_right _ (List.mem_singleton.mpr rfl)
      · exact ih _ (Or.inr ⟨hxs, hkey⟩)

/-- C7 (amended): candidate grouping drops no record by title — every file
passing the flac-extension filter is inserted into the group keyed by its
(normalized title, normalized artist), the empty normalized title
included; only files without a supported extension are dropped. -/
theorem library_groups_keep_all (reader : String → TagData) (files : List String)
    (f : String) (h1 : f ∈ files) (h2 : isFlacPath f = true) :
    songFromPath reader f ∈
      findGroup (libraryNew reader files)
        (SongMetadata.normalize_str (reader f).title,
         SongMetadata.normalize_str (reader f).artist) := by
  unfold libraryNew
  exact libraryNew_fold_mem reader (files.filter isFlacPath) f _ []
    (Or.inr ⟨List.mem_filter.mpr ⟨h1, h2⟩, rfl⟩)

/-- C7 witness: the amended grouping law at the untitled flac file. -/
theorem library_groups_keep_all_witness :
    songFromPath reader0 "a.flac" ∈
      findGroup (libraryNew reader0 ["a.flac"])
        (SongMetadata.normalize_str (reader0 "a.flac").title,
         SongMetadata.normalize_str (reader0 "a.flac").artist) :=
  library_groups_keep_all reader0 ["a.flac"] "a.flac"
    (List.mem_singleton.mpr rfl) (by decide)

end Muman
